import Mathlib

/-!
Verification development for the medical-records blockchain service.

This file shallowly embeds the core of the repository:
`app/services/blockchain_service.py`, `app/services/cosmosdb_service.py`
and `app/models/block.py`.  Pure Python functions become Lean functions;
the stateful service is modelled by explicit state passing over a state
record that carries the three document-store collections, the in-memory
validator list, a schedule of clock readings (one entry consumed per
`datetime.now` call) and a counter deriving fresh uuid strings (one per
`uuid.uuid4()` call).  Machine integers are `Nat` with explicit `% 2^32`
where SHA-256 needs 32-bit wraparound; fallible Python code (raising
exceptions) returns `Except`.
-/

namespace MedChain

/-! ### SHA-256, modelling Python `hashlib.sha256(data).hexdigest()` -/

/-- 2^32, the 32-bit word modulus used throughout SHA-256. -/
def w32 : Nat := 4294967296

/-- Right rotation of a 32-bit word. -/
def rotr (n x : Nat) : Nat := ((x >>> n) ||| ((x <<< (32 - n)) % w32))

/-- Logical right shift. -/
def shr (n x : Nat) : Nat := x >>> n

/-- Bitwise complement on 32 bits. -/
def bnot32 (x : Nat) : Nat := x ^^^ (w32 - 1)

def bigSigma0 (x : Nat) : Nat := (rotr 2 x) ^^^ (rotr 13 x) ^^^ (rotr 22 x)

def bigSigma1 (x : Nat) : Nat := (rotr 6 x) ^^^ (rotr 11 x) ^^^ (rotr 25 x)

def smallSigma0 (x : Nat) : Nat := (rotr 7 x) ^^^ (rotr 18 x) ^^^ (shr 3 x)

def smallSigma1 (x : Nat) : Nat := (rotr 17 x) ^^^ (rotr 19 x) ^^^ (shr 10 x)

def chFn (x y z : Nat) : Nat := (x &&& y) ^^^ ((bnot32 x) &&& z)

def majFn (x y z : Nat) : Nat := (x &&& y) ^^^ (x &&& z) ^^^ (y &&& z)

/-- The 64 SHA-256 round constants. -/
def shaK : List Nat :=
  [1116352408, 1899447441, 3049323471, 3921009573, 961987163,
   1508970993, 2453635748, 2870763221, 3624381080, 310598401,
   607225278, 1426881987, 1925078388, 2162078206, 2614888103,
   3248222580, 3835390401, 4022224774, 264347078, 604807628,
   770255983, 1249150122, 1555081692, 1996064986, 2554220882,
   2821834349, 2952996808, 3210313671, 3336571891, 3584528711,
   113926993, 338241895, 666307205, 773529912, 1294757372,
   1396182291, 1695183700, 1986661051, 2177026350, 2456956037,
   2730485921, 2820302411, 3259730800, 3345764771, 3516065817,
   3600352804, 4094571909, 275423344, 430227734, 506948616,
   659060556, 883997877, 958139571, 1322822218, 1537002063,
   1747873779, 1955562222, 2024104815, 2227730452, 2361852424,
   2428436474, 2756734187, 3204031479, 3329325298]

/-- The eight SHA-256 working variables. -/
structure SHAState where
  a : Nat
  b : Nat
  c : Nat
  d : Nat
  e : Nat
  f : Nat
  g : Nat
  h : Nat
deriving DecidableEq, Repr

/-- SHA-256 initial hash value. -/
def shaInit : SHAState :=
  ⟨1779033703, 3144134277, 1013904242, 2773480762,
   1359893119, 2600822924, 528734635, 1541459225⟩

/-- Big-endian byte rendering of `v` on `n` bytes. -/
def toBytesBE (n v : Nat) : List Nat :=
  (List.range n).map (fun i => (v >>> (8 * (n - 1 - i))) % 256)

/-- SHA-256 padding: append `0x80`, zeros to 56 mod 64, then the 64-bit bit length. -/
def padMessage (msg : List Nat) : List Nat :=
  let len := msg.length
  let padZeros := (119 - len % 64) % 64
  msg ++ [0x80] ++ List.replicate padZeros 0 ++ toBytesBE 8 (len * 8)

/-- Group bytes into big-endian 32-bit words. -/
def bytesToWords : List Nat → List Nat
  | b0 :: b1 :: b2 :: b3 :: rest =>
      (((b0 * 256 + b1) * 256 + b2) * 256 + b3) :: bytesToWords rest
  | _ => []

/-- Split a list into chunks of 64 elements (fuel-based so it reduces in the kernel;
the fuel is the list length, which bounds the number of chunks). -/
def chunk64Go : Nat → List Nat → List (List Nat)
  | 0, _ => []
  | _, [] => []
  | fuel + 1, x :: xs => ((x :: xs).take 64) :: chunk64Go fuel ((x :: xs).drop 64)

def chunk64 (l : List Nat) : List (List Nat) := chunk64Go l.length l

/-- Extend the 16-word message schedule by `k` further words. -/
def buildW (ws : List Nat) : Nat → List Nat
  | 0 => ws
  | Nat.succ k =>
      let i := ws.length
      let next := (smallSigma1 (ws.getD (i - 2) 0) + ws.getD (i - 7) 0 +
                   smallSigma0 (ws.getD (i - 15) 0) + ws.getD (i - 16) 0) % w32
      buildW (ws ++ [next]) k

/-- One SHA-256 round; `kw` pairs the round constant with the schedule word. -/
def roundStep (s : SHAState) (kw : Nat × Nat) : SHAState :=
  let t1 := (s.h + bigSigma1 s.e + chFn s.e s.f s.g + kw.1 + kw.2) % w32
  let t2 := (bigSigma0 s.a + majFn s.a s.b s.c) % w32
  { a := (t1 + t2) % w32, b := s.a, c := s.b, d := s.c,
    e := (s.d + t1) % w32, f := s.e, g := s.f, h := s.g }

/-- Add two SHA states componentwise modulo 2^32. -/
def addState (s t : SHAState) : SHAState :=
  ⟨(s.a + t.a) % w32, (s.b + t.b) % w32, (s.c + t.c) % w32, (s.d + t.d) % w32,
   (s.e + t.e) % w32, (s.f + t.f) % w32, (s.g + t.g) % w32, (s.h + t.h) % w32⟩

/-- Compress one 64-byte block into the running state. -/
def compressBlock (s : SHAState) (blockBytes : List Nat) : SHAState :=
  let ws := buildW (bytesToWords blockBytes) 48
  addState s ((shaK.zip ws).foldl roundStep s)

/-- SHA-256 of a byte list, as the final eight-word state. -/
def sha256Words (msg : List Nat) : SHAState :=
  (chunk64 (padMessage msg)).foldl compressBlock shaInit

/-- The lowercase hexadecimal digit for a nibble: `'0'..'9'` then `'a'..'f'`
(code points 48+n and 87+n respectively), as `hexdigest` renders them. -/
def hexDigitChar (n : Nat) : Char :=
  Char.ofNat (if n < 10 then 48 + n else 87 + n)

/-- The sixteen lowercase hexadecimal digit characters. -/
def hexChars : List Char := (List.range 16).map hexDigitChar

/-- Render a 32-bit word as 8 lowercase hex characters. -/
def word32Hex (x : Nat) : List Char :=
  [hexDigitChar ((x >>> 28) % 16), hexDigitChar ((x >>> 24) % 16),
   hexDigitChar ((x >>> 20) % 16), hexDigitChar ((x >>> 16) % 16),
   hexDigitChar ((x >>> 12) % 16), hexDigitChar ((x >>> 8) % 16),
   hexDigitChar ((x >>> 4) % 16), hexDigitChar (x % 16)]

/-- Hex digest of a byte list: the 64-character lowercase rendering. -/
def sha256hexBytes (msg : List Nat) : String :=
  let s := sha256Words msg
  String.mk (word32Hex s.a ++ word32Hex s.b ++ word32Hex s.c ++ word32Hex s.d ++
             word32Hex s.e ++ word32Hex s.f ++ word32Hex s.g ++ word32Hex s.h)

/-- UTF-8 encoding of one code point, as Python `str.encode()` produces. -/
def utf8Char (c : Nat) : List Nat :=
  if c < 128 then [c]
  else if c < 2048 then [192 + c / 64, 128 + c % 64]
  else if c < 65536 then [224 + c / 4096, 128 + (c / 64) % 64, 128 + c % 64]
  else [240 + c / 262144, 128 + (c / 4096) % 64, 128 + (c / 64) % 64, 128 + c % 64]

/-- UTF-8 bytes of a string, modelling Python `s.encode()`. -/
def strBytes (s : String) : List Nat :=
  s.data.foldr (fun c acc => utf8Char c.toNat ++ acc) []

/-- `hashlib.sha256(s.encode()).hexdigest()`. -/
def sha256hex (s : String) : String := sha256hexBytes (strBytes s)

/-! ### Datetimes

Python `datetime` values (always `timezone.utc` in this code base) are modelled
by their calendar fields.  Both renderings used by the source are embedded:
`datetime.isoformat()` (separator `T`), which `create_block_with_medical_record`
hashes, and `str(datetime)` = `isoformat(sep=' ')`, which an f-string applies to
the `Block.timestamp` field inside `validate_block`'s hash recomputation.
CPython prints the `.ffffff` microsecond part only when it is nonzero, and a
UTC offset as `+00:00`. -/

structure Datetime where
  year : Nat
  month : Nat
  day : Nat
  hour : Nat
  minute : Nat
  second : Nat
  microsecond : Nat
deriving DecidableEq, Repr

/-- Left-pad the decimal rendering of `n` with zeros to width `w`. -/
def padNum (w n : Nat) : String :=
  let s := toString n
  String.mk (List.replicate (w - s.length) '0') ++ s

def datePart (d : Datetime) : String :=
  padNum 4 d.year ++ "-" ++ padNum 2 d.month ++ "-" ++ padNum 2 d.day

def timePart (d : Datetime) : String :=
  padNum 2 d.hour ++ ":" ++ padNum 2 d.minute ++ ":" ++ padNum 2 d.second ++
  (if d.microsecond == 0 then "" else "." ++ padNum 6 d.microsecond)

/-- `datetime.isoformat()` for an aware UTC datetime. -/
def isoformat (d : Datetime) : String :=
  datePart d ++ "T" ++ timePart d ++ "+00:00"

/-- `str(datetime)` for an aware UTC datetime: isoformat with a space separator. -/
def pyStrDatetime (d : Datetime) : String :=
  datePart d ++ " " ++ timePart d ++ "+00:00"

/-! ### JSON payloads and Python dict operations

A medical-record payload is a Python dict, modelled as an association list in
insertion order (string keys, string or integer values — the fields the API
accepts).  `dictSet` is dict item assignment (overwrite in place, else append);
`alookup` is key lookup returning the first match. -/

inductive JValue where
  | s : String → JValue
  | n : Int → JValue
deriving DecidableEq, Repr

abbrev Payload := List (String × JValue)

def alookup {α : Type} (k : String) : List (String × α) → Option α
  | [] => none
  | (k', v) :: rest => if k = k' then some v else alookup k rest

def containsKey {α : Type} (k : String) (l : List (String × α)) : Bool :=
  (alookup k l).isSome

/-- Python `d[k] = v`: replace the value at `k` keeping its position, else append. -/
def dictSet {α : Type} (k : String) (v : α) (l : List (String × α)) : List (String × α) :=
  if containsKey k l then l.map (fun kv => if kv.1 = k then (k, v) else kv)
  else l ++ [(k, v)]

/-- JSON string escaping as `json.dumps` performs it on the characters that occur here. -/
def jsonEscapeChar (c : Char) : List Char :=
  if c == '"' then ['\\', '"']
  else if c == '\\' then ['\\', '\\']
  else if c == '\n' then ['\\', 'n']
  else if c == '\t' then ['\\', 't']
  else if c == '\r' then ['\\', 'r']
  else if c.toNat < 32 then
    ['\\', 'u', '0', '0', hexDigitChar (c.toNat / 16), hexDigitChar (c.toNat % 16)]
  else [c]

def jsonString (s : String) : String :=
  "\"" ++ String.mk (s.data.foldr (fun c acc => jsonEscapeChar c ++ acc) []) ++ "\""

def jsonValue : JValue → String
  | .s v => jsonString v
  | .n v => toString v

/-- Lexicographic comparison of character lists by code point — the order
Python uses on strings. -/
def strListLe : List Char → List Char → Bool
  | [], _ => true
  | _ :: _, [] => false
  | a :: as, b :: bs =>
    if a.toNat < b.toNat then true
    else if b.toNat < a.toNat then false
    else strListLe as bs

def strLe (a b : String) : Bool := strListLe a.data b.data

/-- Ordering of payload entries by key, as `sort_keys=True` sorts them. -/
def keyLe (a b : String × JValue) : Prop := strLe a.1 b.1 = true

instance : DecidableRel keyLe := fun a b => inferInstanceAs (Decidable (strLe a.1 b.1 = true))

theorem strListLe_total (as bs : List Char) :
    strListLe as bs = true ∨ strListLe bs as = true := by
  induction as generalizing bs with
  | nil => exact Or.inl rfl
  | cons a as ih =>
    cases bs with
    | nil => exact Or.inr rfl
    | cons b bs =>
      rcases Nat.lt_trichotomy a.toNat b.toNat with h | h | h
      · exact Or.inl (by simp [strListLe, h])
      · rcases ih bs with h2 | h2
        · exact Or.inl (by simp [strListLe, h, h2])
        · exact Or.inr (by simp [strListLe, h.symm, h2])
      · exact Or.inr (by simp [strListLe, h])

theorem strListLe_trans (as bs cs : List Char)
    (h1 : strListLe as bs = true) (h2 : strListLe bs cs = true) :
    strListLe as cs = true := by
  induction as generalizing bs cs with
  | nil => rfl
  | cons a as ih =>
    cases bs with
    | nil => simp [strListLe] at h1
    | cons b bs =>
      cases cs with
      | nil => simp [strListLe] at h2
      | cons c cs =>
        simp only [strListLe] at h1 h2 ⊢
        rcases Nat.lt_trichotomy a.toNat b.toNat with hab | hab | hab
        · rcases Nat.lt_trichotomy b.toNat c.toNat with hbc | hbc | hbc
          · simp [Nat.lt_trans hab hbc]
          · simp [hbc ▸ hab]
          · simp [hab, Nat.lt_asymm hab] at h1
            simp [hbc, Nat.lt_asymm hbc] at h2
        · rcases Nat.lt_trichotomy b.toNat c.toNat with hbc | hbc | hbc
          · simp [hab ▸ hbc]
          · have hac : a.toNat = c.toNat := hab.trans hbc
            simp [hab, Nat.lt_irrefl] at h1
            simp [hbc, Nat.lt_irrefl] at h2
            simp [hac, Nat.lt_irrefl]
            exact ih bs cs h1 h2
          · simp [hbc, Nat.lt_asymm hbc] at h2
        · simp [hab, Nat.lt_asymm hab] at h1

instance : IsTotal (String × JValue) keyLe :=
  ⟨fun a b => strListLe_total a.1.data b.1.data⟩

instance : IsTrans (String × JValue) keyLe :=
  ⟨fun _ _ _ h1 h2 => strListLe_trans _ _ _ h1 h2⟩

/-- `json.dumps(medical_record, sort_keys=True)`: entries sorted lexicographically
by key, rendered with `", "` and `": "` separators. -/
def jsonDumpsSorted (p : Payload) : String :=
  let sorted := List.insertionSort keyLe p
  "\x7b" ++ String.intercalate ", "
    (sorted.map (fun kv => jsonString kv.1 ++ ": " ++ jsonValue kv.2)) ++ "\x7d"

/-! ### The Hash Engine: `BlockchainService.compute_block_hash` -/

/-- `compute_block_hash`: canonical payload serialization, delimiter-free
concatenation of the string forms of the seven fields in fixed order, SHA-256
hex digest.  `timestamp` arrives already in string form, exactly as the Python
f-string receives it (`isoformat` output at creation, `str(datetime)` during
validation). -/
def compute_block_hash (index : Nat) (timestamp patient_id medical_record_id : String)
    (medical_record : Payload) (previous_hash validator_id : String) : String :=
  let medical_record_string := jsonDumpsSorted medical_record
  let block_string := toString index ++ timestamp ++ patient_id ++ medical_record_id ++
    medical_record_string ++ previous_hash ++ validator_id
  sha256hex block_string

/-! ### Data model: `app/models/block.py` -/

/-- The pydantic `Block` model.  The storage-level document id is generated and
attached by the store, not part of the model (pydantic drops unknown extra
fields such as the `id` keyword passed by `create_block_with_medical_record`). -/
structure Block where
  index : Nat
  timestamp : Datetime
  patient_id : String
  medical_record_id : String
  previous_hash : String
  hash : String
  validator_id : String
deriving DecidableEq, Repr

def blockDefault : Block := ⟨0, ⟨1970, 1, 1, 0, 0, 0, 0⟩, "", "", "", "", ""⟩

/-! ### State: the three CosmosDB collections and the service

Collaborator failures are injected through the `fail*` flags (a raised
`CosmosHttpResponseError` on the corresponding upsert); each `store_*` method
invocation bumps its call counter, so "collaborator call counts" are part of
the state.  `uuid.uuid4()` is modelled as a fresh counter-derived string, and
`datetime.now(timezone.utc)` pops the next entry off the `clock` schedule. -/

structure DBState where
  validatorsStore : List (String × String)
  blockchainStore : List (String × Block)
  medicalRecords : List (String × Payload)
  failStoreValidator : Bool
  failStoreMedicalRecord : Bool
  failStoreBlock : Bool
  storeValidatorCalls : Nat
  storeMedicalRecordCalls : Nat
  storeBlockCalls : Nat
  uuidCtr : Nat
deriving DecidableEq, Repr

structure SvcState where
  db : DBState
  validators : List String
  clock : List Datetime
deriving DecidableEq, Repr

def uuidString (n : Nat) : String := "uuid-" ++ toString n

def genUuid (db : DBState) : String × DBState :=
  (uuidString db.uuidCtr, { db with uuidCtr := db.uuidCtr + 1 })

def readClock (st : SvcState) : Datetime × SvcState :=
  match st.clock with
  | [] => (⟨1970, 1, 1, 0, 0, 0, 0⟩, st)
  | t :: rest => (t, { st with clock := rest })

inductive Err where
  | unauthorized
  | valueError
  | storageFailure
  | notFound
deriving DecidableEq, Repr

/-! ### `CosmosDBService` operations -/

/-- `store_validator`: upsert into the validators collection, `True` on success,
`False` when the upsert raises (the exception is caught inside). -/
def store_validator (db : DBState) (validator_id name : String) : Bool × DBState :=
  let db := { db with storeValidatorCalls := db.storeValidatorCalls + 1 }
  if db.failStoreValidator then (false, db)
  else (true, { db with validatorsStore := dictSet validator_id name db.validatorsStore })

/-- `store_medical_record`: raises `ValueError` without a `type` field, otherwise
generates a fresh id, writes it into the caller's dict, and upserts.  Returns
the id together with the mutated dict (the Python caller holds the same dict
object, so the mutation is visible to `create_block_with_medical_record`). -/
def store_medical_record (db : DBState) (medical_record : Payload) :
    Except Err (String × Payload) × DBState :=
  if containsKey "type" medical_record then
    let (medical_record_id, db) := genUuid db
    let mr := dictSet "id" (JValue.s medical_record_id) medical_record
    let db := { db with storeMedicalRecordCalls := db.storeMedicalRecordCalls + 1 }
    if db.failStoreMedicalRecord then (.error .storageFailure, db)
    else (.ok (medical_record_id, mr),
          { db with medicalRecords := dictSet medical_record_id mr db.medicalRecords })
  else (.error .valueError, db)

/-- Python `key.startswith('_')`: the first character is an underscore. -/
def startsWithUnderscore (s : String) : Bool :=
  match s.data with
  | c :: _ => c = '_'
  | [] => false

/-- `get_medical_record`: `read_item` by id; a missing item raises
`CosmosHttpResponseError`, which the method logs and re-raises; on success the
Cosmos metadata keys (leading underscore) are stripped. -/
def get_medical_record (db : DBState) (record_id : String) : Except Err Payload :=
  match alookup record_id db.medicalRecords with
  | some rec => .ok (rec.filter (fun kv => !(startsWithUnderscore kv.1)))
  | none => .error .notFound

/-- `store_block`: assigns a fresh storage id into the block document and upserts;
returns truthy (the id) on success, `False` when the upsert raises. -/
def store_block (db : DBState) (blk : Block) : Bool × DBState :=
  let (id, db) := genUuid db
  let db := { db with storeBlockCalls := db.storeBlockCalls + 1 }
  if db.failStoreBlock then (false, db)
  else (true, { db with blockchainStore := dictSet id blk db.blockchainStore })

/-! ### `BlockchainService` operations -/

/-- `get_last_block`: `SELECT * FROM c ORDER BY c.index DESC OFFSET 0 LIMIT 1`,
i.e. a block of maximal `index` (or `None` on an empty chain). -/
def get_last_block (db : DBState) : Option Block :=
  (db.blockchainStore.map Prod.snd).foldl
    (fun acc b =>
      match acc with
      | none => some b
      | some a => if a.index < b.index then some b else some a) none

/-- `add_validator`: skip when already present; otherwise persist, and extend the
in-memory list only on success (a failed persist is logged, not raised — hence
the result is always `.ok`). -/
def add_validator (st : SvcState) (validator_id name : String) : Except Err SvcState :=
  if validator_id ∈ st.validators then .ok st
  else
    match store_validator st.db validator_id name with
    | (true, db) => .ok { st with db := db, validators := st.validators ++ [validator_id] }
    | (false, db) => .ok { st with db := db }

/-- `create_block_with_medical_record`.  Order of effects as in the source:
authorization check first; stamp the payload (`created_date_utc` from clock
read 1, `created_by_id`); store the payload; read the chain tail; hash over the
`isoformat` string of clock read 2; construct the `Block` — whose `__init__`
discards the passed timestamp and stores clock read 3 — consuming one uuid for
the discarded `id` argument; finally persist the block. -/
def create_block_with_medical_record (st : SvcState) (patient_id : String)
    (medical_record : Payload) (validator_id user_id : String) :
    SvcState × Except Err Block :=
  if validator_id ∈ st.validators then
    let (t1, st) := readClock st
    let mr := dictSet "created_date_utc" (JValue.s (isoformat t1)) medical_record
    let mr := dictSet "created_by_id" (JValue.s user_id) mr
    match store_medical_record st.db mr with
    | (.error e, db) => ({ st with db := db }, .error e)
    | (.ok (medical_record_id, mr), db) =>
      let st := { st with db := db }
      let last_block := get_last_block st.db
      let previous_hash := match last_block with | some b => b.hash | none => "0"
      let (t2, st) := readClock st
      let timestamp := isoformat t2
      let index := match last_block with | some b => b.index + 1 | none => 1
      let hash_value := compute_block_hash index timestamp patient_id medical_record_id
        mr previous_hash validator_id
      let (_blockIdArg, db) := genUuid st.db
      let st := { st with db := db }
      let (t3, st) := readClock st
      let new_block : Block :=
        { index := index, timestamp := t3, patient_id := patient_id,
          medical_record_id := medical_record_id, previous_hash := previous_hash,
          hash := hash_value, validator_id := validator_id }
      match store_block st.db new_block with
      | (true, db) => ({ st with db := db }, .ok new_block)
      | (false, db) => ({ st with db := db }, .error .storageFailure)
  else (st, .error .unauthorized)

/-- `validate_block`: fetch the referenced payload (propagating a fetch error),
recompute the fingerprint over the block's stored fields — the f-string renders
`block.timestamp` via `str(datetime)` — and compare with the stored hash. -/
def validate_block (db : DBState) (block : Block) : Except Err Bool :=
  match get_medical_record db block.medical_record_id with
  | .error e => .error e
  | .ok medical_record =>
    let recomputed := compute_block_hash block.index (pyStrDatetime block.timestamp)
      block.patient_id block.medical_record_id medical_record
      block.previous_hash block.validator_id
    .ok (recomputed == block.hash)

/-- Ordering of blocks by `index`, for `ORDER BY c.index ASC`. -/
def blockLe (a b : Block) : Prop := a.index ≤ b.index

instance : DecidableRel blockLe := fun a b => inferInstanceAs (Decidable (a.index ≤ b.index))

instance : IsTotal Block blockLe := ⟨fun a b => le_total a.index b.index⟩

instance : IsTrans Block blockLe := ⟨fun _ _ _ h1 h2 => le_trans h1 h2⟩

/-- Reconstructing `Block(**item)` for each fetched document: pydantic's
overridden `__init__` replaces the stored timestamp with `datetime.now()`,
consuming one clock reading per block. -/
def rebuildBlocks (st : SvcState) : List Block → List Block × SvcState
  | [] => ([], st)
  | b :: rest =>
    let (t, st) := readClock st
    let (bs, st) := rebuildBlocks st rest
    ({ b with timestamp := t } :: bs, st)

/-- `get_blockchain`: all blocks ordered by ascending index, each re-created
through the `Block` model. -/
def get_blockchain (st : SvcState) : List Block × SvcState :=
  rebuildBlocks st (List.insertionSort blockLe (st.db.blockchainStore.map Prod.snd))

/-- The `for i in range(1, len(blockchain))` loop of `validate_blockchain`,
with its two early `return False` exits.  Structured as fuel recursion on the
remaining index range so that it reduces in the kernel. -/
def validateLoop (db : DBState) (blockchain : List Block) : Nat → Nat → Except Err Bool
  | 0, _ => .ok true
  | fuel + 1, i =>
    if i < blockchain.length then
      let current_block := blockchain.getD i blockDefault
      let previous_block := blockchain.getD (i - 1) blockDefault
      match validate_block db current_block with
      | .error e => .error e
      | .ok valid =>
        if !valid then .ok false
        else if current_block.previous_hash != previous_block.hash then .ok false
        else validateLoop db blockchain fuel (i + 1)
    else .ok true

/-- `validate_blockchain`: fetch the chain, then run the pair loop from index 1. -/
def validate_blockchain (st : SvcState) : Except Err Bool :=
  let (blockchain, st) := get_blockchain st
  validateLoop st.db blockchain blockchain.length 1

/-! ### Derived notions used by the statements -/

/-- The chain as `validate_blockchain` sees it. -/
def chainOf (st : SvcState) : List Block := (get_blockchain st).1

instance {ε α : Type} [DecidableEq ε] [DecidableEq α] : DecidableEq (Except ε α) := fun a b =>
  match a, b with
  | .ok x, .ok y =>
    if h : x = y then isTrue (by rw [h]) else isFalse (fun hh => h (Except.ok.inj hh))
  | .error e, .error f =>
    if h : e = f then isTrue (by rw [h]) else isFalse (fun hh => h (Except.error.inj hh))
  | .ok _, .error _ => isFalse (fun hh => Except.noConfusion hh)
  | .error _, .ok _ => isFalse (fun hh => Except.noConfusion hh)

/-- The check `validate_blockchain` performs for the adjacent pair ending at
position `i`: the block re-validates and links to its predecessor. -/
def pairOK (db : DBState) (bc : List Block) (i : Nat) : Prop :=
  validate_block db (bc.getD i blockDefault) = .ok true ∧
  (bc.getD i blockDefault).previous_hash = (bc.getD (i - 1) blockDefault).hash

instance (db : DBState) (bc : List Block) (i : Nat) : Decidable (pairOK db bc i) :=
  inferInstanceAs (Decidable (_ ∧ _))

/-- Every character is a lowercase hexadecimal digit. -/
def isLowerHex (s : String) : Bool := s.data.all fun c => hexChars.contains c

/-! ### Concrete states used by closed theorems and witnesses -/

def dtA : Datetime := ⟨2024, 1, 2, 3, 4, 5, 0⟩

def dtB : Datetime := ⟨2024, 1, 2, 3, 4, 6, 0⟩

def dtC : Datetime := ⟨2024, 1, 2, 3, 4, 7, 0⟩

def db0 : DBState := ⟨[], [], [], false, false, false, 0, 0, 0, 0⟩

def mr0 : Payload := [("type", JValue.s "exam")]

/-- Fresh state with one authorized validator and three scheduled clock readings:
enough for the three `datetime.now` calls of one append. -/
def st1bug : SvcState := ⟨db0, ["v1"], [dtA, dtB, dtC]⟩

/-- State whose validator registry rejects writes. -/
def stC7 : SvcState := ⟨⟨[], [], [], true, false, false, 0, 0, 0, 0⟩, [], []⟩

/-! ### Association-list lemmas -/

theorem alookup_cons {α : Type} (k k' : String) (v : α) (t : List (String × α)) :
    alookup k ((k', v) :: t) = if k = k' then some v else alookup k t := rfl

theorem containsKey_false_iff {α : Type} (k : String) (l : List (String × α)) :
    containsKey k l = false ↔ alookup k l = none := by
  unfold containsKey
  cases alookup k l <;> simp

theorem alookup_append_none {α : Type} (k : String) (l l' : List (String × α))
    (h : alookup k l = none) : alookup k (l ++ l') = alookup k l' := by
  induction l with
  | nil => simp
  | cons kv t ih =>
    obtain ⟨a, b⟩ := kv
    rw [alookup_cons] at h
    by_cases hk : k = a
    · simp [hk] at h
    · rw [List.cons_append, alookup_cons, if_neg hk]
      exact ih (by simpa [hk] using h)

theorem alookup_append_some {α : Type} (k : String) (l l' : List (String × α)) (w : α)
    (h : alookup k l = some w) : alookup k (l ++ l') = some w := by
  induction l with
  | nil => simp [alookup] at h
  | cons kv t ih =>
    obtain ⟨a, b⟩ := kv
    rw [alookup_cons] at h
    by_cases hk : k = a
    · simp [hk] at h
      simp [List.cons_append, alookup_cons, hk, h]
    · rw [List.cons_append, alookup_cons, if_neg hk]
      exact ih (by simpa [hk] using h)

theorem alookup_map_overwrite {α : Type} (k : String) (v : α) :
    ∀ l : List (String × α), containsKey k l = true →
      alookup k (l.map fun kv => if kv.1 = k then (k, v) else kv) = some v := by
  intro l
  induction l with
  | nil => simp [containsKey, alookup]
  | cons kv t ih =>
    obtain ⟨a, b⟩ := kv
    intro h
    by_cases ha : a = k
    · subst ha
      rw [List.map_cons]
      have h1 : (if (a, b).1 = a then (a, v) else (a, b)) = (a, v) := by simp
      rw [h1, alookup_cons, if_pos rfl]
    · have hka : ¬ (k = a) := fun hh => ha hh.symm
      unfold containsKey at h
      rw [alookup_cons, if_neg hka] at h
      simp only [List.map_cons, if_neg ha]
      rw [alookup_cons, if_neg hka]
      exact ih h

theorem alookup_dictSet_self {α : Type} (k : String) (v : α) (l : List (String × α)) :
    alookup k (dictSet k v l) = some v := by
  unfold dictSet
  by_cases hc : containsKey k l
  · rw [if_pos hc]
    exact alookup_map_overwrite k v l hc
  · rw [if_neg hc]
    have hn : alookup k l = none :=
      (containsKey_false_iff k l).1 (Bool.eq_false_iff.2 hc)
    rw [alookup_append_none k l _ hn, alookup_cons]
    simp

theorem containsKey_map_overwrite {α : Type} (k k' : String) (v : α) (hne : k ≠ k') :
    ∀ l : List (String × α), containsKey k l = true →
      containsKey k (l.map fun kv => if kv.1 = k' then (k', v) else kv) = true := by
  intro l
  induction l with
  | nil => simp [containsKey, alookup]
  | cons kv t ih =>
    obtain ⟨a, b⟩ := kv
    intro h
    unfold containsKey at h ⊢
    rw [alookup_cons] at h
    by_cases hka : k = a
    · subst hka
      rw [List.map_cons]
      have h1 : (if (k, b).1 = k' then (k', v) else (k, b)) = (k, b) := by simp [hne]
      rw [h1, alookup_cons, if_pos rfl]
      rfl
    · rw [if_neg hka] at h
      by_cases ha : a = k'
      · simp only [List.map_cons, if_pos ha, alookup_cons, if_neg hne]
        exact ih h
      · simp only [List.map_cons, if_neg ha, alookup_cons, if_neg hka]
        exact ih h

theorem containsKey_dictSet_mono {α : Type} (k k' : String) (v : α) (l : List (String × α))
    (hne : k ≠ k') (h : containsKey k l = true) :
    containsKey k (dictSet k' v l) = true := by
  unfold dictSet
  by_cases hc : containsKey k' l
  · rw [if_pos hc]
    exact containsKey_map_overwrite k k' v hne l h
  · rw [if_neg hc]
    unfold containsKey at h ⊢
    obtain ⟨w, hw⟩ := Option.isSome_iff_exists.1 h
    rw [alookup_append_some k l _ w hw]
    rfl

/-! ### Store-congruence lemmas -/

theorem store_medical_record_blockchainStore (db : DBState) (mr : Payload) :
    ((store_medical_record db mr).2).blockchainStore = db.blockchainStore := by
  unfold store_medical_record genUuid
  dsimp only
  split <;> [skip; rfl]
  split <;> rfl

theorem get_last_block_congr {db1 db2 : DBState}
    (h : db1.blockchainStore = db2.blockchainStore) :
    get_last_block db1 = get_last_block db2 := by
  unfold get_last_block
  rw [h]

/-- Success shape of `store_medical_record`: with the discriminator present and
the upsert succeeding, it returns the fresh id and the id-stamped dict, and
inserts that dict into the medical-records collection. -/
theorem store_medical_record_ok (db : DBState) (mr : Payload)
    (htype : containsKey "type" mr = true) (hmr : db.failStoreMedicalRecord = false) :
    store_medical_record db mr =
      (.ok (uuidString db.uuidCtr, dictSet "id" (JValue.s (uuidString db.uuidCtr)) mr),
       { db with
         medicalRecords := dictSet (uuidString db.uuidCtr)
           (dictSet "id" (JValue.s (uuidString db.uuidCtr)) mr) db.medicalRecords,
         storeMedicalRecordCalls := db.storeMedicalRecordCalls + 1,
         uuidCtr := db.uuidCtr + 1 }) := by
  unfold store_medical_record genUuid
  rw [if_pos htype]
  dsimp only
  rw [hmr]
  rfl

/-- Normal form for a clock read: the store and validator list pass through. -/
theorem readClock_eq (st : SvcState) :
    readClock st = ((readClock st).1, ⟨st.db, st.validators, (readClock st).2.clock⟩) := by
  obtain ⟨db, v, c⟩ := st
  cases c <;> rfl

/-! ### Claims -/

/-- Claim C3: calling `create_block_with_medical_record` with a `validator_id`
outside the in-memory validator list fails with the Unauthorized error and
leaves the whole state — all three stores, all collaborator call counters, the
validator list and the clock — exactly unchanged: the authorization check is
the first action of the operation. -/
theorem c3_unauthorized_no_mutation (st : SvcState) (patient_id : String)
    (medical_record : Payload) (validator_id user_id : String)
    (h : validator_id ∉ st.validators) :
    create_block_with_medical_record st patient_id medical_record validator_id user_id
      = (st, .error .unauthorized) := by
  unfold create_block_with_medical_record
  rw [if_neg h]

theorem c3_witness :
    ("vX" ∉ st1bug.validators) ∧
    create_block_with_medical_record st1bug "p" mr0 "vX" "u"
      = (st1bug, .error .unauthorized) :=
  ⟨by decide, c3_unauthorized_no_mutation st1bug "p" mr0 "vX" "u" (by decide)⟩

/-- Claim C8: when the referenced medical record is absent from the Content
Store, `validate_block` propagates the fetch error (`get_medical_record`
re-raises the `CosmosHttpResponseError`); it does not return a boolean, so a
missing record is distinguishable from a tampered hash. -/
theorem c8_missing_record_propagates (db : DBState) (b : Block)
    (h : alookup b.medical_record_id db.medicalRecords = none) :
    validate_block db b = .error .notFound := by
  unfold validate_block get_medical_record
  rw [h]

theorem c8_witness :
    (alookup blockDefault.medical_record_id db0.medicalRecords = none) ∧
    validate_block db0 blockDefault = .error .notFound :=
  ⟨by decide, c8_missing_record_propagates db0 blockDefault (by decide)⟩

/-- Claim C6: `add_validator` is idempotent.  Registering a fresh id once (with
persistence succeeding) bumps the Validator Registry call counter by exactly
one and puts the id exactly once into the in-memory list; registering the same
id again is a silent no-op returning the identical state — in particular no
further persistence call happens. -/
theorem c6_register_validator_idempotent (st st1 : SvcState) (v n₁ n₂ : String)
    (hnew : v ∉ st.validators) (hok : st.db.failStoreValidator = false)
    (h1 : add_validator st v n₁ = .ok st1) :
    add_validator st1 v n₂ = .ok st1 ∧
    st1.db.storeValidatorCalls = st.db.storeValidatorCalls + 1 ∧
    st1.validators.count v = 1 := by
  have hrun : add_validator st v n₁ =
      .ok ⟨{ { st.db with storeValidatorCalls := st.db.storeValidatorCalls + 1 }
             with validatorsStore := dictSet v n₁ st.db.validatorsStore },
           st.validators ++ [v], st.clock⟩ := by
    unfold add_validator store_validator
    rw [if_neg hnew]
    dsimp only
    rw [hok]
    rfl
  rw [hrun] at h1
  obtain rfl : _ = st1 := Except.ok.inj h1
  refine ⟨?_, rfl, ?_⟩
  · have hv : v ∈ st.validators ++ [v] :=
      List.mem_append.2 (Or.inr (List.mem_singleton.2 rfl))
    unfold add_validator
    rw [if_pos hv]
  · rw [List.count_append, List.count_eq_zero.2 hnew]
    simp

theorem c6_witness :
    ("v1" ∉ (⟨db0, [], []⟩ : SvcState).validators) ∧
    (⟨db0, [], []⟩ : SvcState).db.failStoreValidator = false ∧
    (add_validator ⟨⟨[("v1", "n1")], [], [], false, false, false, 1, 0, 0, 0⟩, ["v1"], []⟩
        "v1" "n2"
      = .ok ⟨⟨[("v1", "n1")], [], [], false, false, false, 1, 0, 0, 0⟩, ["v1"], []⟩ ∧
     (⟨⟨[("v1", "n1")], [], [], false, false, false, 1, 0, 0, 0⟩,
        ["v1"], []⟩ : SvcState).db.storeValidatorCalls
        = (⟨db0, [], []⟩ : SvcState).db.storeValidatorCalls + 1 ∧
     (⟨⟨[("v1", "n1")], [], [], false, false, false, 1, 0, 0, 0⟩,
        ["v1"], []⟩ : SvcState).validators.count "v1" = 1) :=
  ⟨by decide, rfl,
   c6_register_validator_idempotent ⟨db0, [], []⟩
     ⟨⟨[("v1", "n1")], [], [], false, false, false, 1, 0, 0, 0⟩, ["v1"], []⟩
     "v1" "n1" "n2" (by decide) rfl (by decide)⟩

/-- Claim C7 counterexample: with a failing Validator Registry and a fresh id,
`add_validator` returns normally (`.ok`, i.e. no exception reaches the caller —
the failure is only logged inside), so the operation does NOT report the
failure; the in-memory list stays unchanged while the call counter records the
attempted persist. -/
theorem c7_counterexample :
    add_validator stC7 "v1" "n1" =
      .ok ⟨⟨[], [], [], true, false, false, 1, 0, 0, 0⟩, [], []⟩ := by decide

/-- Claim C7 (amended): when `add_validator` is called with a new id and the
Validator Registry persist fails, the in-memory validator list and the
persisted registry are left unchanged (no partial state), but the operation
completes without raising: the caller observes a normal return. -/
theorem c7_amended_no_partial_state (st : SvcState) (v n : String)
    (hnew : v ∉ st.validators) (hfail : st.db.failStoreValidator = true) :
    ∃ st', add_validator st v n = .ok st' ∧
      st'.validators = st.validators ∧
      st'.db.validatorsStore = st.db.validatorsStore ∧
      st'.db.storeValidatorCalls = st.db.storeValidatorCalls + 1 := by
  refine ⟨⟨{ st.db with storeValidatorCalls := st.db.storeValidatorCalls + 1 },
           st.validators, st.clock⟩, ?_, rfl, rfl, rfl⟩
  unfold add_validator store_validator
  rw [if_neg hnew]
  dsimp only
  rw [hfail]
  rfl

theorem c7_amended_witness :
    ∃ st', add_validator stC7 "v1" "n1" = .ok st' ∧
      st'.validators = stC7.validators ∧
      st'.db.validatorsStore = stC7.db.validatorsStore ∧
      st'.db.storeValidatorCalls = stC7.db.storeValidatorCalls + 1 :=
  c7_amended_no_partial_state stC7 "v1" "n1" (by decide) rfl

/-- Claim C2: every successful `create_block_with_medical_record` links the new
block to the chain tail read at the start of the operation: index is
`tail.index + 1` and `previous_hash` is `tail.hash` when a tail exists, else
index `1` and the sentinel `"0"`. -/
theorem c2_append_linkage (st : SvcState) (patient_id : String) (medical_record : Payload)
    (validator_id user_id : String) (b : Block)
    (h : (create_block_with_medical_record st patient_id medical_record validator_id user_id).2
      = .ok b) :
    match get_last_block st.db with
    | some tail => b.index = tail.index + 1 ∧ b.previous_hash = tail.hash
    | none => b.index = 1 ∧ b.previous_hash = "0" := by
  by_cases hv : validator_id ∈ st.validators
  · unfold create_block_with_medical_record at h
    rw [if_pos hv, readClock_eq st] at h
    dsimp only at h
    split at h
    · simp at h
    · rename_i mrid mr' db' heqsm
      try dsimp only at h
      have hbs : db'.blockchainStore = st.db.blockchainStore := by
        have h2 := congrArg Prod.snd heqsm
        dsimp only at h2
        rw [← h2]
        exact store_medical_record_blockchainStore _ _
      rw [readClock_eq] at h
      try dsimp only at h
      rw [readClock_eq] at h
      try dsimp only [genUuid, store_block] at h
      have hlast : get_last_block st.db = get_last_block db' :=
        (get_last_block_congr hbs).symm
      split at h
      · try dsimp only at h
        obtain rfl : _ = b := Except.ok.inj h
        rw [hlast]
        cases heql : get_last_block db' with
        | some tail => simp [heql]
        | none => simp [heql]
      · simp at h
  · unfold create_block_with_medical_record at h
    rw [if_neg hv] at h
    exact absurd h (by simp)

def b0c2 : Block :=
  ⟨1, dtC, "p1", "uuid-0", "0",
   "8c7aab33910574da783efd1c6be4aad1409093513583360891e58f5d411f3545", "v1"⟩

set_option maxRecDepth 100000 in
theorem c2_witness : b0c2.index = 1 ∧ b0c2.previous_hash = "0" :=
  c2_append_linkage st1bug "p1" mr0 "v1" "u1" b0c2 (by decide)

/-! ### Hash-digest shape lemmas -/

theorem word32Hex_length (x : Nat) : (word32Hex x).length = 8 := rfl

theorem sha256hex_length (s : String) : (sha256hex s).length = 64 := by
  simp [sha256hex, sha256hexBytes, String.length, word32Hex]

theorem hexDigitChar_mem : ∀ n, n < 16 → hexChars.contains (hexDigitChar n) = true := by decide

theorem word32Hex_all (x : Nat) : ∀ c ∈ word32Hex x, hexChars.contains c = true := by
  intro c hc
  simp only [word32Hex, List.mem_cons, List.not_mem_nil, or_false] at hc
  rcases hc with rfl | rfl | rfl | rfl | rfl | rfl | rfl | rfl <;>
    exact hexDigitChar_mem _ (Nat.mod_lt _ (by norm_num))

theorem sha256hex_lower_hex (s : String) : isLowerHex (sha256hex s) = true := by
  unfold isLowerHex sha256hex sha256hexBytes
  dsimp only
  rw [List.all_eq_true]
  intro c hc
  simp only [List.mem_append] at hc
  rcases hc with ((((((h | h) | h) | h) | h) | h) | h) | h <;> exact word32Hex_all _ _ h

/-! ### Canonicalization lemmas: sorted serialization is insensitive to dict order -/

theorem char_eq_of_toNat_eq {a b : Char} (h : a.toNat = b.toNat) : a = b := by
  have ha := Char.ofNat_toNat a
  rw [h, Char.ofNat_toNat b] at ha
  exact ha.symm

theorem strListLe_antisymm (as bs : List Char)
    (h1 : strListLe as bs = true) (h2 : strListLe bs as = true) : as = bs := by
  induction as generalizing bs with
  | nil =>
    cases bs with
    | nil => rfl
    | cons b bs => simp [strListLe] at h2
  | cons a as ih =>
    cases bs with
    | nil => simp [strListLe] at h1
    | cons b bs =>
      simp only [strListLe] at h1 h2
      rcases Nat.lt_trichotomy a.toNat b.toNat with hab | hab | hab
      · simp [hab, Nat.lt_asymm hab] at h2
      · have hc : a = b := char_eq_of_toNat_eq hab
        subst hc
        simp only [Nat.lt_irrefl, if_neg, ite_false] at h1 h2
        rw [ih bs h1 h2]
      · simp [hab, Nat.lt_asymm hab] at h1

theorem strLe_antisymm {a b : String} (h1 : strLe a b = true) (h2 : strLe b a = true) :
    a = b := by
  obtain ⟨as⟩ := a
  obtain ⟨bs⟩ := b
  have := strListLe_antisymm as bs h1 h2
  rw [this]

theorem alookup_eq_some_iff_mem {α : Type} {k : String} {v : α} {l : List (String × α)}
    (h : (l.map Prod.fst).Nodup) : alookup k l = some v ↔ (k, v) ∈ l := by
  induction l with
  | nil => simp [alookup]
  | cons kv t ih =>
    obtain ⟨a, b⟩ := kv
    simp only [List.map_cons, List.nodup_cons] at h
    by_cases hk : k = a
    · subst hk
      rw [alookup_cons, if_pos rfl]
      constructor
      · intro hs
        obtain rfl : b = v := Option.some.inj hs
        exact List.mem_cons_self _ _
      · intro hm
        rcases List.mem_cons.1 hm with heq | hmem
        · obtain ⟨-, rfl⟩ := Prod.mk.inj heq
          rfl
        · exact absurd (List.mem_map_of_mem Prod.fst hmem) h.1
    · rw [alookup_cons, if_neg hk, ih h.2]
      constructor
      · exact List.mem_cons_of_mem _
      · intro hm
        rcases List.mem_cons.1 hm with heq | hmem
        · exact absurd (congrArg Prod.fst heq) hk
        · exact hmem

theorem perm_of_alookup_eq {α : Type} {l₁ l₂ : List (String × α)}
    (h1 : (l₁.map Prod.fst).Nodup) (h2 : (l₂.map Prod.fst).Nodup)
    (h : ∀ k, alookup k l₁ = alookup k l₂) : l₁.Perm l₂ := by
  have n1 : l₁.Nodup := List.Nodup.of_map Prod.fst h1
  have n2 : l₂.Nodup := List.Nodup.of_map Prod.fst h2
  refine (List.perm_ext_iff_of_nodup n1 n2).2 ?_
  intro p
  obtain ⟨k, v⟩ := p
  rw [← alookup_eq_some_iff_mem h1, ← alookup_eq_some_iff_mem h2, h k]

theorem pairwise_and_aux {α : Type} {R S : α → α → Prop} :
    ∀ {l : List α}, l.Pairwise R → l.Pairwise S →
      l.Pairwise fun a b => R a b ∧ S a b := by
  intro l h1 h2
  induction l with
  | nil => exact List.Pairwise.nil
  | cons a t ih =>
    cases h1 with
    | cons ha ht =>
      cases h2 with
      | cons hb hs => exact List.Pairwise.cons (fun b hb' => ⟨ha b hb', hb b hb'⟩) (ih ht hs)

/-- Two dict contents that are permutations of each other (with no duplicate
keys) have the same key-sorted entry list. -/
theorem insertionSort_eq_of_perm (l₁ l₂ : List (String × JValue))
    (h1 : (l₁.map Prod.fst).Nodup) (hp : l₁.Perm l₂) :
    List.insertionSort keyLe l₁ = List.insertionSort keyLe l₂ := by
  have hps : (List.insertionSort keyLe l₁).Perm (List.insertionSort keyLe l₂) :=
    (List.perm_insertionSort _ _).trans (hp.trans (List.perm_insertionSort keyLe l₂).symm)
  have hs1 : (List.insertionSort keyLe l₁).Sorted keyLe := List.sorted_insertionSort _ _
  have hs2 : (List.insertionSort keyLe l₂).Sorted keyLe := List.sorted_insertionSort _ _
  have hn1 : ((List.insertionSort keyLe l₁).map Prod.fst).Nodup :=
    (((List.perm_insertionSort keyLe l₁).map Prod.fst).nodup_iff).2 h1
  have hne1 : (List.insertionSort keyLe l₁).Pairwise fun a b => a.1 ≠ b.1 :=
    List.pairwise_map.1 hn1
  have hn2 : ((List.insertionSort keyLe l₂).map Prod.fst).Nodup :=
    ((hps.map Prod.fst).nodup_iff).1 hn1
  have hne2 : (List.insertionSort keyLe l₂).Pairwise fun a b => a.1 ≠ b.1 :=
    List.pairwise_map.1 hn2
  have hlt1 : (List.insertionSort keyLe l₁).Pairwise fun a b => keyLe a b ∧ a.1 ≠ b.1 :=
    pairwise_and_aux hs1 hne1
  have hlt2 : (List.insertionSort keyLe l₂).Pairwise fun a b => keyLe a b ∧ a.1 ≠ b.1 :=
    pairwise_and_aux hs2 hne2
  exact @List.eq_of_perm_of_sorted _ (fun a b => keyLe a b ∧ a.1 ≠ b.1)
    ⟨fun a b hab hba => absurd (strLe_antisymm hab.1 hba.1) hab.2⟩ _ _ hps hlt1 hlt2

/-- Claim C4: `compute_block_hash` is deterministic and insensitive to payload
key order — two dicts equal as mappings (same lookup at every key, no duplicate
keys) with identical scalar fields produce the identical digest — and the
digest is a 64-character lowercase-hexadecimal string. -/
theorem c4_fingerprint_canonical (index : Nat)
    (timestamp patient_id medical_record_id previous_hash validator_id : String)
    (p1 p2 : Payload)
    (h1 : (p1.map Prod.fst).Nodup) (h2 : (p2.map Prod.fst).Nodup)
    (h : ∀ k, alookup k p1 = alookup k p2) :
    compute_block_hash index timestamp patient_id medical_record_id p1
        previous_hash validator_id
      = compute_block_hash index timestamp patient_id medical_record_id p2
        previous_hash validator_id
    ∧ (compute_block_hash index timestamp patient_id medical_record_id p1
        previous_hash validator_id).length = 64
    ∧ isLowerHex (compute_block_hash index timestamp patient_id medical_record_id p1
        previous_hash validator_id) = true := by
  refine ⟨?_, sha256hex_length _, sha256hex_lower_hex _⟩
  have hperm := perm_of_alookup_eq h1 h2 h
  have hsort := insertionSort_eq_of_perm p1 p2 h1 hperm
  unfold compute_block_hash jsonDumpsSorted
  rw [hsort]

def p1w : Payload := [("b", JValue.n 1), ("a", JValue.s "x")]

def p2w : Payload := [("a", JValue.s "x"), ("b", JValue.n 1)]

theorem c4_witness :
    compute_block_hash 1 "t" "p" "m" p1w "0" "v"
      = compute_block_hash 1 "t" "p" "m" p2w "0" "v"
    ∧ (compute_block_hash 1 "t" "p" "m" p1w "0" "v").length = 64
    ∧ isLowerHex (compute_block_hash 1 "t" "p" "m" p1w "0" "v") = true :=
  c4_fingerprint_canonical 1 "t" "p" "m" "0" "v" p1w p2w (by decide) (by decide)
    (by
      intro k
      by_cases hb : k = "b" <;> by_cases ha : k = "a"
      · rw [hb] at ha
        exact absurd ha (by decide)
      · simp [p1w, p2w, alookup, hb, ha]
      · simp [p1w, p2w, alookup, hb, ha]
      · simp [p1w, p2w, alookup, hb, ha])

/-! ### Chain-validation loop lemmas -/

theorem rebuildBlocks_db (l : List Block) :
    ∀ st : SvcState, ((rebuildBlocks st l).2).db = st.db := by
  induction l with
  | nil => intro st; rfl
  | cons b t ih =>
    intro st
    unfold rebuildBlocks
    rw [readClock_eq st]
    dsimp only
    have ih2 := ih ⟨st.db, st.validators, (readClock st).2.clock⟩
    rcases hr : rebuildBlocks ⟨st.db, st.validators, (readClock st).2.clock⟩ t with ⟨bs, st2⟩
    rw [hr] at ih2
    exact ih2

theorem get_blockchain_db (st : SvcState) : ((get_blockchain st).2).db = st.db := by
  unfold get_blockchain
  exact rebuildBlocks_db _ st

/-- `validate_blockchain` in terms of the loop over the fetched chain, run
against the unchanged stores. -/
theorem validate_blockchain_eq (st : SvcState) :
    validate_blockchain st
      = validateLoop st.db (chainOf st) (chainOf st).length 1 := by
  unfold validate_blockchain chainOf
  have hdb := get_blockchain_db st
  rcases hg : get_blockchain st with ⟨bc, st2⟩
  rw [hg] at hdb
  dsimp only
  rw [hdb]

theorem validateLoop_ok_iff (db : DBState) (bc : List Block) :
    ∀ (fuel i : Nat), bc.length ≤ fuel + i →
      (validateLoop db bc fuel i = .ok true ↔
        ∀ j, i ≤ j → j < bc.length → pairOK db bc j) := by
  intro fuel
  induction fuel with
  | zero =>
    intro i hlen
    simp only [validateLoop]
    constructor
    · intro _ j hij hj
      exact absurd hj (by omega)
    · intro _
      trivial
  | succ fuel ih =>
    intro i hlen
    rw [validateLoop]
    by_cases hi : i < bc.length
    · rw [if_pos hi]
      cases hvb : validate_block db (bc.getD i blockDefault) with
      | error e =>
        simp only [hvb]
        constructor
        · intro hcontra
          exact absurd hcontra (by simp)
        · intro hall
          have := (hall i le_rfl hi).1
          rw [hvb] at this
          exact absurd this (by simp)
      | ok valid =>
        cases valid with
        | false =>
          simp only [hvb, Bool.not_false, if_true]
          constructor
          · intro hcontra
            exact absurd hcontra (by simp)
          · intro hall
            have := (hall i le_rfl hi).1
            rw [hvb] at this
            exact absurd this (by simp)
        | true =>
          simp only [hvb, Bool.not_true, if_false]
          by_cases hph : (bc.getD i blockDefault).previous_hash
              = (bc.getD (i - 1) blockDefault).hash
          · have hbne : ((bc.getD i blockDefault).previous_hash
                != (bc.getD (i - 1) blockDefault).hash) = false := by
              rw [hph]
              exact bne_self_eq_false _
            simp only [hbne, Bool.false_eq_true, if_false]
            rw [ih (i + 1) (by omega)]
            constructor
            · intro hrest j hij hj
              by_cases hji : j = i
              · subst hji
                exact ⟨hvb, hph⟩
              · exact hrest j (by omega) hj
            · intro hall j hij hj
              exact hall j (by omega) hj
          · have hbne := bne_iff_ne.mpr hph
            simp only [hbne, reduceIte]
            constructor
            · intro hcontra
              exact absurd hcontra (by simp)
            · intro hall
              exact absurd (hall i le_rfl hi).2 hph
    · rw [if_neg hi]
      constructor
      · intro _ j hij hj
        exact absurd hj (by omega)
      · intro _
        rfl

theorem validateLoop_false_at (db : DBState) (bc : List Block) :
    ∀ (fuel i j : Nat), i ≤ j → j < bc.length → j < fuel + i →
      (∀ m, i ≤ m → m < j → pairOK db bc m) →
      (validate_block db (bc.getD j blockDefault) = .ok false ∨
        (validate_block db (bc.getD j blockDefault) = .ok true ∧
         (bc.getD j blockDefault).previous_hash
           ≠ (bc.getD (j - 1) blockDefault).hash)) →
      validateLoop db bc fuel i = .ok false := by
  intro fuel
  induction fuel with
  | zero =>
    intro i j hij hj hfuel
    exact absurd hfuel (by omega)
  | succ fuel ih =>
    intro i j hij hj hfuel hbefore hfail
    rw [validateLoop, if_pos (lt_of_le_of_lt hij hj)]
    by_cases hji : i = j
    · subst hji
      rcases hfail with hf | ⟨hok, hne⟩
      · simp only [hf, Bool.not_false, if_true]
      · simp only [hok, Bool.not_true, if_false]
        have hbne := bne_iff_ne.mpr hne
        simp only [hbne, Bool.false_eq_true, if_false]
        exact if_pos trivial
    · have hij' : i < j := lt_of_le_of_ne hij hji
      have hpi := hbefore i le_rfl hij'
      have hbne2 : ((bc.getD i blockDefault).previous_hash
          != (bc.getD (i - 1) blockDefault).hash) = false := by
        rw [hpi.2]
        exact bne_self_eq_false _
      simp only [hpi.1, Bool.not_true, Bool.false_eq_true, if_false, hbne2]
      exact ih (i + 1) j (by omega) hj (by omega)
        (fun m hm1 hm2 => hbefore m (by omega) hm2) hfail

/-- Claim C5: `validate_blockchain` checks exactly the adjacent pairs of the
fetched chain in ascending order — it returns `.ok true` iff every block at
position 1 and above re-validates and links to its predecessor; an empty or
single-block chain is trivially valid; and at the first failing pair (all
earlier pairs passing) it short-circuits to `.ok false` regardless of anything
later in the chain. -/
theorem c5_validate_chain (st : SvcState) :
    ((chainOf st).length ≤ 1 → validate_blockchain st = .ok true)
    ∧ (validate_blockchain st = .ok true ↔
        ∀ j, j < (chainOf st).length → 1 ≤ j → pairOK st.db (chainOf st) j)
    ∧ (∀ j, j < (chainOf st).length → 1 ≤ j →
        (∀ m, m < j → 1 ≤ m → pairOK st.db (chainOf st) m) →
        (validate_block st.db ((chainOf st).getD j blockDefault) = .ok false ∨
          (validate_block st.db ((chainOf st).getD j blockDefault) = .ok true ∧
           ((chainOf st).getD j blockDefault).previous_hash
             ≠ ((chainOf st).getD (j - 1) blockDefault).hash)) →
        validate_blockchain st = .ok false) := by
  rw [validate_blockchain_eq]
  refine ⟨?_, ?_, ?_⟩
  · intro hlen
    exact (validateLoop_ok_iff st.db (chainOf st) (chainOf st).length 1 (by omega)).2
      (fun j hij hj => absurd hj (by omega))
  · rw [validateLoop_ok_iff st.db (chainOf st) (chainOf st).length 1 (by omega)]
    constructor
    · intro hall j hj h1
      exact hall j h1 hj
    · intro hall j h1 hj
      exact hall j hj h1
  · intro j hj h1 hbefore hfail
    exact validateLoop_false_at st.db (chainOf st) (chainOf st).length 1 j h1 hj
      (by omega) (fun m hm1 hm2 => hbefore m hm2 hm1) hfail

def stC5w : SvcState := ⟨db0, [], []⟩

theorem c5_witness : validate_blockchain stC5w = .ok true :=
  (c5_validate_chain stC5w).1 (by decide)

/-- Claim C10: the loop of `validate_blockchain` starts at list position 1, so
the first block's own hash is never re-verified (`validate_block` is never
applied to it — not even its referenced record is fetched): whenever every
block at positions 1 and above re-validates and links correctly, the chain
validates, with no condition whatsoever on the first block's hash or record. -/
theorem c10_first_block_not_revalidated (st : SvcState)
    (h : ∀ j, j < (chainOf st).length → 1 ≤ j → pairOK st.db (chainOf st) j) :
    validate_blockchain st = .ok true := by
  rw [validate_blockchain_eq]
  exact (validateLoop_ok_iff st.db (chainOf st) (chainOf st).length 1 (by omega)).2
    (fun j h1 hj => h j hj h1)

/-- C10 witness chain: the first stored block has a garbage hash AND a dangling
medical-record reference (fetching it would raise), yet the chain validates
because the loop never applies `validate_block` at position 0.  The second
block's hash is the digest `validate_block` recomputes after `get_blockchain`
resets its timestamp to the scheduled clock reading `dtC`. -/
def stC10w : SvcState :=
  ⟨⟨[],
    [("s0", ⟨1, dtA, "p0", "rmissing", "0", "garbage", "v1"⟩),
     ("s1", ⟨2, dtA, "p1", "r1", "garbage",
       "8d7c26603fc012b0200a2864eee39aceea705626bfea17a017fda86f27fe4fb4", "v1"⟩)],
    [("r1", [("type", JValue.s "x")])],
    false, false, false, 0, 0, 0, 0⟩, [], [dtB, dtC]⟩

set_option maxRecDepth 100000 in
theorem c10_witness : validate_blockchain stC10w = .ok true :=
  c10_first_block_not_revalidated stC10w (by decide)

/-- Claim C9: when persisting the block fails, the append fails with the
storage-failure error while the medical record stored earlier in the same
operation stays in the Content Store under its generated id (no rollback — an
orphan record), and the Ledger Store is unchanged. -/
theorem c9_storage_failure_orphan (st : SvcState) (patient_id : String)
    (medical_record : Payload) (validator_id user_id : String)
    (hv : validator_id ∈ st.validators)
    (htype : containsKey "type" medical_record = true)
    (hmr : st.db.failStoreMedicalRecord = false)
    (hblk : st.db.failStoreBlock = true) :
    ∃ st' stored,
      create_block_with_medical_record st patient_id medical_record validator_id user_id
        = (st', .error .storageFailure) ∧
      alookup (uuidString st.db.uuidCtr) st'.db.medicalRecords = some stored ∧
      st'.db.blockchainStore = st.db.blockchainStore := by
  unfold create_block_with_medical_record
  rw [if_pos hv, readClock_eq st]
  dsimp only
  have htype2 : containsKey "type"
      (dictSet "created_by_id" (JValue.s user_id)
        (dictSet "created_date_utc" (JValue.s (isoformat (readClock st).1)) medical_record))
      = true := by
    refine containsKey_dictSet_mono _ _ _ _ (by decide) ?_
    exact containsKey_dictSet_mono _ _ _ _ (by decide) htype
  rw [store_medical_record_ok _ _ htype2 hmr]
  dsimp only
  rw [readClock_eq]
  dsimp only
  rw [readClock_eq]
  dsimp only [genUuid, store_block]
  rw [hblk]
  simp only [reduceIte]
  try dsimp only
  exact ⟨_, _, rfl, alookup_dictSet_self _ _ _, rfl⟩

/-- State for the C9 witness: failing Ledger Store, authorized validator. -/
def stC9 : SvcState := ⟨⟨[], [], [], false, false, true, 0, 0, 0, 0⟩, ["v1"], [dtA, dtB, dtC]⟩

theorem c9_witness :
    ∃ st' stored,
      create_block_with_medical_record stC9 "p1" mr0 "v1" "u1"
        = (st', .error .storageFailure) ∧
      alookup (uuidString stC9.db.uuidCtr) st'.db.medicalRecords = some stored ∧
      st'.db.blockchainStore = stC9.db.blockchainStore :=
  c9_storage_failure_orphan stC9 "p1" mr0 "v1" "u1" (by decide) (by decide) rfl rfl

set_option maxRecDepth 100000 in
/-- Claim C1 exhibit (the code contradicts the claim): starting from an empty
chain with an authorized validator and three scheduled clock instants, a
successful `create_block_with_medical_record` produces a block on which
`validate_block` — run against the resulting stores, with nothing modified —
returns `.ok false`, not true.  `Block.__init__` discards the timestamp string
that was hashed (clock read 2, rendered by `isoformat`) and stores clock read 3
instead, which validation renders via `str(datetime)`; the hashed serialization
therefore never matches. -/
theorem c1_fresh_block_fails_validation :
    (create_block_with_medical_record st1bug "p1" mr0 "v1" "u1").2.map
      (fun b => validate_block (create_block_with_medical_record st1bug "p1" mr0 "v1" "u1").1.db b)
      = .ok (.ok false) := by decide

end MedChain
